import Mathlib

/-!
# Ollama-Desktop: verification of the frozen spec claims

Shallow embedding, translated from the Python sources:

* `src/workers.py`   — `OllamaWorker.run`, `OllamaWorker.cancel`,
  `ModelManager._pull_model`, `ModelManager._format_size`
* `src/main_window.py` — `OllamaDesktopApp.filter_valid_models`,
  `OllamaDesktopApp.send_message`, `OllamaDesktopApp.closeEvent`

Python strings are modelled as Lean `String` (lists of characters compared by
code point, as Python does); Python's `in` substring test, `str.lower`,
`str.strip` and `str.split(':', 1)` are given explicit executable models
below.  Machine arithmetic: Python integers are unbounded, so `Nat`/`Int` is
exact; the two places where the code computes with IEEE-754 binary64 floats
(`_format_size` and the percentage in `_pull_model`) are modelled exactly with
natural-number arithmetic and explicit round-to-nearest-even, see the comments
at `roundRatToF64` and `ModelManager_format_size`.
-/

/-! ## String helpers (models of the Python primitives) -/

/-- Decides whether character list `n` starts character list `h`. -/
def startsWithB : List Char → List Char → Bool
  | [], _ => true
  | _ :: _, [] => false
  | a :: as, b :: bs => a == b && startsWithB as bs

/-- Model of Python's substring test `n in h` on character lists. -/
def hasSubstr : List Char → List Char → Bool
  | n, [] => n.isEmpty
  | n, h@(_ :: t) => startsWithB n h || hasSubstr n t

/-- Python's `needle in hay` for strings. -/
def pyIn (needle hay : String) : Bool := hasSubstr needle.data hay.data

/-- Python's `str.lower()` (ASCII case folding, which covers every string the
code manipulates). -/
def pyLower (s : String) : String := ⟨s.data.map Char.toLower⟩

/-- The ASCII whitespace characters stripped by Python's `str.strip()`. -/
def pyIsSpace (c : Char) : Bool :=
  c == ' ' || c == '\t' || c == '\n' || c == '\x0d' || c == '\x0b' || c == '\x0c'

/-- Python's `str.strip()`: drop leading and trailing whitespace. -/
def pyStrip (s : String) : String :=
  ⟨((s.data.dropWhile pyIsSpace).reverse.dropWhile pyIsSpace).reverse⟩

/-- The tag part of `model.split(':', 1)`: everything after the first colon. -/
def tagAfterColon (l : List Char) : List Char :=
  (l.dropWhile (fun c => ! (c == ':'))).drop 1

/-- Code-point lexicographic `≤` on character lists: the order Python uses to
compare strings. -/
def lexLe : List Char → List Char → Bool
  | [], _ => true
  | _ :: _, [] => false
  | a :: as, b :: bs => if a < b then true else if a == b then lexLe as bs else false

/-- Python's `≤` on strings (code-point lexicographic). -/
def pyStrLe (a b : String) : Bool := lexLe a.data b.data

/-! ## `OllamaDesktopApp.filter_valid_models` (src/main_window.py:330-383) -/

/-- The skip-keyword list of `filter_valid_models` (checked on the lowered
full identifier). -/
def skipKeywords : List String :=
  ["embedding", "vision", "multimodal", "experimental",
   "unstable", "beta", "alpha", "dev", "draft",
   "corrupt", "broken", "incomplete", "failed"]

/-- The tag denylist of `filter_valid_models` (checked on the lowered tag). -/
def invalidTags : List String :=
  ["fp16", "gguf", "bin", "safetensors", "pytorch",
   "tf", "onnx", "openvino", "mlx", "f16", "q2_k",
   "q3_k", "q4_k", "q5_k", "q6_k", "q8_0", "iq",
   "code", "instruct-fp16", "chat-fp16"]

/-- The deprecated-model list of `filter_valid_models`. -/
def deprecatedModels : List String :=
  ["codellama:7b-python", "codellama:13b-python", "codellama:34b-python",
   "vicuna", "alpaca", "chatglm", "baichuan", "internlm"]

/-- The size markers rejected by `filter_valid_models`. -/
def sizeMarkers : List String := ["70b", "72b", "180b", "405b"]

/-- The allow-listed family tokens of `filter_valid_models`. -/
def validPatterns : List String :=
  ["llama", "mistral", "gemma", "qwen", "phi", "tinyllama",
   "orca", "dolphin", "wizard", "neural", "nous", "zephyr"]

/-- One iteration of the `for model in models` loop of `filter_valid_models`:
`true` iff the model survives every `continue` and is appended. -/
def keepModel (model : String) : Bool :=
  let ml := pyLower model
  if skipKeywords.any fun k => pyIn k ml then false
  else if pyIn "test" ml && ! pyIn "latest" ml then false
  else if model.data.contains ':' &&
      invalidTags.any (fun t => pyIn t ⟨(tagAfterColon model.data).map Char.toLower⟩) then false
  else if deprecatedModels.any fun d => pyIn d ml then false
  else if sizeMarkers.any fun s => pyIn s ml then false
  else validPatterns.any fun p => pyIn p ml

/-- Model of `OllamaDesktopApp.filter_valid_models`: keep the surviving models in input
order, then `sorted(...)` (Python's stable ascending sort by code point, which
insertion sort reproduces exactly). -/
def filter_valid_models (models : List String) : List String :=
  List.insertionSort (fun a b => pyStrLe a b = true) (models.filter keepModel)

/-! ## `ModelManager._format_size` (src/workers.py:232-242)

The Python loop divides a binary64 float by `1024.0`; that division is exact
(it only decrements the exponent), so after `k` divisions the float equals
`float(size_bytes) / 1024^k` exactly, and since every comparison threshold
`1024^(k+1)` (k ≤ 4) is below `2^53` the comparisons `size < 1024.0` agree
with the integer comparisons `size_bytes < 1024^(k+1)` for every input.
`f"{size:.1f}"` prints the float rounded to one decimal, ties to even.  The
code first converts with `float(size_bytes)`; that conversion is the identity
for `size_bytes < 2^53`, so on that range the printed digits are exactly
round-to-nearest-even of the rational `size_bytes / 1024^k`, which is what
`fmtOneDecimal` computes with `rneNat` — the model below folds the `float`
conversion away.  For `size_bytes ≥ 2^53` (reachable only in the TB/PB
branches) the conversion rounds and the final printed digit of the real code
can differ from this exact-rational model by one; accordingly the theorems
only tie the printed digits to `n / 1024^k` under the hypothesis
`n < 2^53`, and assert nothing about the digit values beyond it. -/

/-- Round `a / b` to the nearest natural number, ties to even (`b > 0`). -/
def rneNat (a b : Nat) : Nat :=
  let q := a / b
  let r := a % b
  if 2 * r < b then q
  else if b < 2 * r then q + 1
  else if q % 2 = 0 then q else q + 1

/-- Model of `f"{(n / den):.1f} {unit}"`: the value rounded to one decimal place
(ties to even), a dot, then the unit. -/
def fmtOneDecimal (n den : Nat) (unit : String) : String :=
  let d := rneNat (10 * n) den
  Nat.repr (d / 10) ++ "." ++ Nat.repr (d % 10) ++ " " ++ unit

/-- The `for unit in ['B', 'KB', 'MB', 'GB', 'TB']` loop of `_format_size`:
return at the first unit whose scaled value is below 1024, falling through
to `PB`. -/
def formatSizeLoop (n : Nat) : List String → Nat → String
  | [], k => fmtOneDecimal n (1024 ^ k) "PB"
  | u :: us, k => if n < 1024 ^ (k + 1) then fmtOneDecimal n (1024 ^ k) u
      else formatSizeLoop n us (k + 1)

/-- Model of `ModelManager._format_size`. -/
def ModelManager_format_size (size_bytes : Nat) : String :=
  if size_bytes = 0 then "Unknown"
  else formatSizeLoop size_bytes ["B", "KB", "MB", "GB", "TB"] 0

/-- The unit `_format_size` selects: the first binary unit from `B` upward
for which `n / 1024^k < 1024`, `PB` if there is none.  (Spec §4.2 wording:
"the largest binary unit such that `n / 1024^k < 1024`".) -/
def formatSizeUnit (n : Nat) : String :=
  if n < 1024 then "B"
  else if n < 1024 ^ 2 then "KB"
  else if n < 1024 ^ 3 then "MB"
  else if n < 1024 ^ 4 then "GB"
  else if n < 1024 ^ 5 then "TB"
  else "PB"

/-- The exponent `k` of the unit `_format_size` selects: the displayed value
is `n / 1024^k`. -/
def formatSizeExp (n : Nat) : Nat :=
  if n < 1024 then 0
  else if n < 1024 ^ 2 then 1
  else if n < 1024 ^ 3 then 2
  else if n < 1024 ^ 4 then 3
  else if n < 1024 ^ 5 then 4
  else 5

/-! ## `OllamaWorker` (src/workers.py:13-98)

The worker's cooperative cancellation flag `is_cancelled` is set (only) by
`OllamaWorker.cancel` (src/workers.py:96-98) and polled at the top of the
streaming loop.  `cancelAt : Option Nat` models when the flag flips: the flag
reads `true` at check point `i` iff `cancelAt = some k` with `k ≤ i`;
`cancelAt = none` means it is never set. -/

/-- The value the cooperative cancel flag has at check point `i`. -/
def cancelledAt (cancelAt : Option Nat) (i : Nat) : Bool :=
  match cancelAt with
  | none => false
  | some k => decide (k ≤ i)

/-- Model of `models.ChatMessage` (src/models.py:11-18).  The timestamp is abstracted
to an opaque tick count; only `role` and `content` are ever sent upstream. -/
structure ChatMessage where
  role : String
  content : String
  timestamp : Option Nat
  model : String
  tokens : Nat

/-- Model of `models.ModelConfig` (src/models.py:47-54); the two float fields carry
exactly representable settings values and are passed through untouched. -/
structure ModelConfig where
  temperature : ℚ
  top_p : ℚ
  num_predict : Int
  num_ctx : Int
  system_prompt : String

/-- One chunk of the streaming chat response:
`chunk.get('message', {}).get('content', '')` and `chunk.get('done', False)`
(missing fields already defaulted to `""` / `False`). -/
structure ChatChunk where
  content : String
  done : Bool

/-- The three signals `OllamaWorker` can emit. -/
inductive WEvent where
  | message_chunk (s : String)
  | message_complete (s : String)
  | error_occurred (s : String)
deriving DecidableEq

/-- The `ollama_messages` request payload built by `OllamaWorker.run`
(src/workers.py:40-60): start empty, append a system message if the stripped
system prompt is non-empty, then append `(role, content)` for each message of
the transcript in order. -/
def buildOllamaMessages (model_config : ModelConfig) (messages : List ChatMessage) :
    List (String × String) :=
  let base : List (String × String) :=
    if (pyStrip model_config.system_prompt).isEmpty then []
    else [("system", pyStrip model_config.system_prompt)]
  messages.foldl (fun acc m => acc ++ [(m.role, m.content)]) base

/-- The `for chunk in response` loop of `OllamaWorker.run`
(src/workers.py:79-90): poll the cancel flag, emit each non-empty fragment,
accumulate it into `full_response`, and emit `message_complete` on the first
chunk whose `done` is true.  Falling off the end of the stream emits
nothing further. -/
def ollamaChatLoop (cancelAt : Option Nat) :
    List ChatChunk → Nat → String → List WEvent
  | [], _, _ => []
  | ch :: rest, i, full_response =>
    if cancelledAt cancelAt i then []
    else
      let evs := if ch.content.isEmpty then [] else [WEvent.message_chunk ch.content]
      let acc := if ch.content.isEmpty then full_response else full_response ++ ch.content
      if ch.done then evs ++ [WEvent.message_complete acc]
      else evs ++ ollamaChatLoop cancelAt rest (i + 1) acc

/-- The observable events of `OllamaWorker.run` on an exception-free stream
(src/workers.py:30-94): the initial cancel check, then the streaming loop. -/
def OllamaWorker_run (cancelAt : Option Nat) (chunks : List ChatChunk) : List WEvent :=
  if cancelledAt cancelAt 0 then [] else ollamaChatLoop cancelAt chunks 0 ""

/-! ## Exact model of the binary64 arithmetic in `_pull_model`

`_pull_model` computes `int((completed_size / total_size) * 100)` with Python
floats (IEEE-754 binary64).  A non-negative finite double is a dyadic
rational `m * 2^e` with `m < 2^54`; division of two Python ints and float
multiplication are correctly rounded (round to nearest, ties to even).  The
model below reproduces that rounding exactly over `Nat`/`Int` for the normal
range (byte-count ratios never come near the subnormal or overflow ranges). -/

/-- A non-negative binary64 value `m * 2^e`, kept unpacked. -/
structure F64 where
  m : Nat
  e : Int

/-- Fuel-driven bit length: `bitlenAux fuel n` is the number of binary digits of `n` (so that
it reduces in the kernel; `fuel ≥ n` suffices). -/
def bitlenAux : Nat → Nat → Nat
  | 0, _ => 0
  | fuel + 1, n => if n = 0 then 0 else bitlenAux fuel (n / 2) + 1

/-- Number of binary digits of `n` (`0` for `0`). -/
def bitlen (n : Nat) : Nat := bitlenAux n n

/-- Integer part of the base-2 logarithm of `a / b`, for `a, b ≥ 1`. -/
def floorLog2Q (a b : Nat) : Int :=
  let d : Int := (bitlen a : Int) - (bitlen b : Int)
  if 0 ≤ d then (if b * 2 ^ d.toNat ≤ a then d else d - 1)
  else (if b ≤ a * 2 ^ (-d).toNat then d else d - 1)

/-- Round the rational `a / b` (`b > 0`) to the nearest binary64 value,
ties to even: scale so that the mantissa lands in `[2^52, 2^53]` and round
with `rneNat`. -/
def roundRatToF64 (a b : Nat) : F64 :=
  if a = 0 then ⟨0, 0⟩
  else
    let e : Int := floorLog2Q a b - 52
    if 0 ≤ e then ⟨rneNat a (b * 2 ^ e.toNat), e⟩
    else ⟨rneNat (a * 2 ^ (-e).toNat) b, e⟩

/-- Python `a / b` on non-negative ints: correctly rounded binary64. -/
def pyFloatDivNat (a b : Nat) : F64 := roundRatToF64 a b

/-- Python float `x * k` for a non-negative int literal `k`: the exact
product rounded back to binary64. -/
def pyFloatMulNat (x : F64) (k : Nat) : F64 :=
  if 0 ≤ x.e then roundRatToF64 (x.m * k * 2 ^ x.e.toNat) 1
  else roundRatToF64 (x.m * k) (2 ^ (-x.e).toNat)

/-- Python `int(x)` on a non-negative float: truncation. -/
def pyIntOfF64 (x : F64) : Int :=
  if 0 ≤ x.e then ((x.m * 2 ^ x.e.toNat : Nat) : Int)
  else ((x.m / 2 ^ (-x.e).toNat : Nat) : Int)

/-- Model of `int((completed_size / total_size) * 100)` (src/workers.py:220). -/
def pullPercentage (completed total : Nat) : Int :=
  pyIntOfF64 (pyFloatMulNat (pyFloatDivNat completed total) 100)

/-! ## `ModelManager._pull_model` (src/workers.py:192-230) -/

/-- One progress update of the streaming pull: the optional `total`,
`completed` and `status` fields. -/
structure PullChunk where
  total : Option Nat
  completed : Option Nat
  status : Option String

/-- The signals `ModelManager` emits during a pull. -/
inductive MEvent where
  | pull_progress (pct : Int) (msg : String)
  | model_pulled (name : String)
  | error_occurred (msg : String)
deriving DecidableEq

/-- The `for progress in client.pull(...)` loop (src/workers.py:207-223):
poll the cancel flag, fold the sparse `total`/`completed` fields into the
running `total_size`/`completed_size`, and emit one progress event per
update.  Returns the emitted events plus whether the loop returned early
because of cancellation. -/
def pullLoopEvents (cancelAt : Option Nat) :
    List PullChunk → Nat → Nat → Nat → List MEvent × Bool
  | [], _, _, _ => ([], false)
  | ch :: rest, i, total_size, completed_size =>
    if cancelledAt cancelAt i then ([MEvent.pull_progress 0 "Download cancelled"], true)
    else
      let t := ch.total.getD total_size
      let c := ch.completed.getD completed_size
      let status := ch.status.getD "Downloading..."
      let ev := if 0 < t then
          MEvent.pull_progress (pullPercentage c t)
            ("Downloading to remote server: " ++ status ++
              " (" ++ toString (pullPercentage c t) ++ "%)")
        else MEvent.pull_progress (-1) ("Remote download: " ++ status)
      let rec_result := pullLoopEvents cancelAt rest (i + 1) t c
      (ev :: rec_result.1, rec_result.2)

/-- The observable events of `ModelManager._pull_model` on an exception-free
stream: the falsy-name guard (`model_name` is `None` or empty), the starting
progress emit, the loop, and the success emit guarded by the final
`if not self.is_cancelled` check (check point `chunks.length`). -/
def ModelManager_pull_model (model_name : Option String) (chunks : List PullChunk)
    (cancelAt : Option Nat) : List MEvent :=
  if (model_name.getD "").isEmpty then [MEvent.error_occurred "No model name provided"]
  else
    let name := model_name.getD ""
    let loop_result := pullLoopEvents cancelAt chunks 0 0 0
    MEvent.pull_progress (-1) ("Starting download of " ++ name ++ " to remote server...")
      :: loop_result.1
      ++ (if loop_result.2 then []
          else if cancelledAt cancelAt chunks.length then []
          else [MEvent.model_pulled name])

/-! ## `OllamaDesktopApp.send_message` / `closeEvent` worker handling

`send_message` (src/main_window.py:417-434) runs, in order: if a prior
worker object exists, `quit()` then a blocking `wait()`; then it constructs
the new worker, connects its signals and `start()`s it.  `closeEvent`
(src/main_window.py:1052-1055) is the one place the chat worker's
cooperative cancel flag is set: `cancel()`, then `quit()`, then a bounded
`wait(3000)`.  The traces below are those statement sequences; `cancel_prior`
is the embedding of `OllamaWorker.cancel` (src/workers.py:96-98), the only
action that sets `is_cancelled`. -/

inductive SendAction where
  | quit_prior
  | wait_prior
  | cancel_prior
  | create_worker
  | connect_signals
  | start_new
deriving DecidableEq

/-- Worker-lifecycle statements executed by `send_message`
(src/main_window.py:417-434), given whether `self.ollama_worker` is set. -/
def send_message_worker_actions (prior_worker_set : Bool) : List SendAction :=
  (if prior_worker_set then [SendAction.quit_prior, SendAction.wait_prior] else [])
    ++ [SendAction.create_worker, SendAction.connect_signals, SendAction.start_new]

/-- Worker-lifecycle statements executed by `closeEvent` on the chat worker
(src/main_window.py:1052-1055). -/
def close_event_worker_actions (prior_worker_set : Bool) : List SendAction :=
  if prior_worker_set
  then [SendAction.cancel_prior, SendAction.quit_prior, SendAction.wait_prior]
  else []

/-- Which actions set the prior worker's `is_cancelled` flag: only
`OllamaWorker.cancel` does (src/workers.py:96-98); `quit` asks the (unused)
thread event loop to exit and `wait` blocks until `run` returns — neither
touches the flag. -/
def setsCancelFlag : SendAction → Bool
  | SendAction.cancel_prior => true
  | _ => false

/-- The prior worker's `is_cancelled` flag after a trace of actions. -/
def cancelFlagAfter (init : Bool) (tr : List SendAction) : Bool :=
  init || tr.any setsCancelFlag

/-! ## Spec-side helper definitions used in the theorem statements -/

/-- Recognizes the `error_occurred` signal of the chat worker. -/
def isErrorEvent : WEvent → Bool
  | WEvent.error_occurred _ => true
  | _ => false

/-- Recognizes the `message_complete` signal of the chat worker. -/
def isCompleteEvent : WEvent → Bool
  | WEvent.message_complete _ => true
  | _ => false

/-- The last `total` byte count delivered by a sequence of pull updates,
starting from `t` (the code starts from `0`, meaning "not yet known"). -/
def stickyTotal (t : Nat) (chunks : List PullChunk) : Nat :=
  chunks.foldl (fun a ch => ch.total.getD a) t

/-- The last `completed` byte count delivered by a sequence of pull updates,
starting from `c`. -/
def stickyCompleted (c : Nat) (chunks : List PullChunk) : Nat :=
  chunks.foldl (fun a ch => ch.completed.getD a) c

/-- The single progress event the spec expects for one pull update, given the
byte counts `t`/`c` known before it: the binary64-computed percentage while
the effective total is positive, an indeterminate `-1` paired with the server
status otherwise. -/
def pullEventFor (t c : Nat) (ch : PullChunk) : MEvent :=
  let t2 := ch.total.getD t
  let c2 := ch.completed.getD c
  let status := ch.status.getD "Downloading..."
  if 0 < t2 then
    MEvent.pull_progress (pullPercentage c2 t2)
      ("Downloading to remote server: " ++ status ++
        " (" ++ toString (pullPercentage c2 t2) ++ "%)")
  else MEvent.pull_progress (-1) ("Remote download: " ++ status)

/-- The per-update progress events the spec expects for a whole uncancelled
pull, threading the sticky byte counts from `t`/`c`. -/
def pullSpecList (t c : Nat) : List PullChunk → List MEvent
  | [] => []
  | ch :: rest =>
      pullEventFor t c ch :: pullSpecList (ch.total.getD t) (ch.completed.getD c) rest

/-- Index of the first chunk of a chat stream that carries `done = true`. -/
def doneIdx (chunks : List ChatChunk) : Nat := chunks.findIdx (fun c => c.done)

/-- The non-empty fragments delivered up to and including the first `done`
chunk, in arrival order. -/
def contentsBeforeDone (chunks : List ChatChunk) : List String :=
  ((chunks.take (doneIdx chunks + 1)).map (fun c => c.content)).filter
    (fun s => ! s.isEmpty)

/-! ## Helper lemmas -/

/-- Left-folding string append from `a` is `a` followed by the join. -/
theorem string_foldl_append : ∀ (l : List String) (a : String),
    l.foldl (fun r s => r ++ s) a = a ++ String.join l
  | [], a => by
      simp only [List.foldl_nil, String.join, String.append_empty]
  | s :: l, a => by
      simp only [List.foldl_cons, String.join]
      rw [string_foldl_append l (a ++ s), string_foldl_append l ("" ++ s),
        String.empty_append, String.append_assoc]

/-- Join distributes over cons. -/
theorem string_join_cons (s : String) (l : List String) :
    String.join (s :: l) = s ++ String.join l := by
  have h : String.join (s :: l) = l.foldl (fun r s => r ++ s) ("" ++ s) := rfl
  rw [h, string_foldl_append l ("" ++ s), String.empty_append]

/-- On a stream whose first `done` chunk exists and with no cancellation, the
chat loop emits one incremental event per non-empty fragment up to that
chunk, then one completion event carrying the accumulator extended by the
concatenation of those fragments. -/
theorem ollamaChatLoop_first_done :
    ∀ (chunks : List ChatChunk), chunks.any (fun c => c.done) = true →
      ∀ (i : Nat) (acc : String),
        ollamaChatLoop none chunks i acc =
          (contentsBeforeDone chunks).map WEvent.message_chunk
            ++ [WEvent.message_complete (acc ++ String.join (contentsBeforeDone chunks))]
  | [], h, _, _ => by simp at h
  | ch :: rest, h, i, acc => by
      by_cases hd : ch.done = true
      · have hcb : contentsBeforeDone (ch :: rest) =
            (if ch.content.isEmpty then [] else [ch.content]) := by
          simp [contentsBeforeDone, doneIdx, List.findIdx_cons, hd]
          by_cases he : ch.content.isEmpty <;> simp [he]
        by_cases he : ch.content.isEmpty
        · simp only [ollamaChatLoop, cancelledAt, hd, he, hcb, if_true, if_false]
          simp [String.join, String.append_empty]
        · simp only [ollamaChatLoop, cancelledAt, hd, he, hcb, if_true, if_false]
          simp [string_join_cons, String.join, String.append_empty]
      · have hd2 : ch.done = false := by
          cases hdone : ch.done
          · rfl
          · exact absurd hdone hd
        have hrest : rest.any (fun c => c.done) = true := by
          simp only [List.any_cons, hd2, Bool.false_or] at h
          exact h
        have hcb : contentsBeforeDone (ch :: rest) =
            (if ch.content.isEmpty then contentsBeforeDone rest
             else ch.content :: contentsBeforeDone rest) := by
          simp [contentsBeforeDone, doneIdx, List.findIdx_cons, hd2]
          by_cases he : ch.content.isEmpty <;> simp [he]
        have ih1 := ollamaChatLoop_first_done rest hrest (i + 1) acc
        have ih2 := ollamaChatLoop_first_done rest hrest (i + 1) (acc ++ ch.content)
        by_cases he : ch.content.isEmpty
        · simp only [ollamaChatLoop, cancelledAt, hd2, he, hcb, if_true, if_false]
          simp [ih1]
        · simp only [ollamaChatLoop, cancelledAt, hd2, he, hcb, if_true, if_false]
          simp [ih2, string_join_cons, String.append_assoc]

/-- Appending one translated element per step through a left fold is the
same as appending the mapped list. -/
theorem foldl_append_singleton {α β : Type} (f : α → β) :
    ∀ (l : List α) (init : List β),
      l.foldl (fun acc m => acc ++ [f m]) init = init ++ l.map f
  | [], init => by simp
  | x :: xs, init => by
      simp only [List.foldl_cons, List.map_cons]
      rw [foldl_append_singleton f xs (init ++ [f x])]
      simp

/-- On a stream containing no `done` chunk and with no cancellation, the chat
loop emits exactly the non-empty fragments, in order, and nothing else. -/
theorem ollamaChatLoop_no_done :
    ∀ (chunks : List ChatChunk), (∀ c ∈ chunks, c.done = false) →
      ∀ (i : Nat) (acc : String),
        ollamaChatLoop none chunks i acc =
          ((chunks.map (fun c => c.content)).filter (fun s => ! s.isEmpty)).map
            WEvent.message_chunk
  | [], _, _, _ => rfl
  | ch :: rest, h, i, acc => by
      have hd : ch.done = false := h ch (List.mem_cons_self ch rest)
      have ih := ollamaChatLoop_no_done rest
        (fun c hc => h c (List.mem_cons_of_mem ch hc)) (i + 1)
      simp only [ollamaChatLoop, cancelledAt, hd]
      by_cases he : ch.content.isEmpty
      · simp [he, ih]
      · simp [he, ih]

/-! ## Claim theorems -/

/-- C3: applying the model catalog filter to the input list
`["llama3.2:latest", "llama3.2:test", "vision-model:latest",
"70b-llama:latest", "codellama:latest"]` returns exactly
`["codellama:latest", "llama3.2:latest"]`, sorted ascending. -/
theorem C3_filter_concrete_list :
    filter_valid_models
      ["llama3.2:latest", "llama3.2:test", "vision-model:latest",
       "70b-llama:latest", "codellama:latest"] =
      ["codellama:latest", "llama3.2:latest"] := by decide

/-- C4, counterexample: in `send_message` the prior in-flight request is
never asked to cancel — the trace contains no `cancel_prior` action and the
prior worker's cooperative cancel flag stays `false`. -/
theorem C4_cex_no_cancel_requested :
    SendAction.cancel_prior ∉ send_message_worker_actions true ∧
    cancelFlagAfter false (send_message_worker_actions true) = false := by decide

/-- C4, amended: starting a new send while a prior worker exists runs
`quit()` then a blocking `wait()` on the prior worker — so the prior request
has fully stopped before the new one starts and no listener observes
interleaved fragments — but the prior request's cooperative cancel flag is
never set by `send_message` (only `closeEvent` sets it); the prior stream is
waited to completion, not cancelled. -/
theorem C4_amended_wait_not_cancel :
    send_message_worker_actions true =
      [SendAction.quit_prior, SendAction.wait_prior, SendAction.create_worker,
       SendAction.connect_signals, SendAction.start_new] ∧
    (send_message_worker_actions true).indexOf SendAction.wait_prior <
      (send_message_worker_actions true).indexOf SendAction.start_new ∧
    cancelFlagAfter false (send_message_worker_actions true) = false ∧
    cancelFlagAfter false (close_event_worker_actions true) = true := by decide

/-- C10: a pull with no model name set (missing or empty) emits exactly the
one error event `"No model name provided"` — independently of whatever the
transport would have delivered, so no progress update, no success event, and
no server contact. -/
theorem C10_pull_without_name (model_name : Option String) (chunks : List PullChunk)
    (cancelAt : Option Nat) (h : model_name = none ∨ model_name = some "") :
    ModelManager_pull_model model_name chunks cancelAt =
      [MEvent.error_occurred "No model name provided"] := by
  rcases h with h | h <;> subst h <;> rfl

/-- Witness for C10 at a concrete input. -/
theorem C10_pull_without_name_witness :
    ModelManager_pull_model none [PullChunk.mk (some 10) (some 5) none] none =
      [MEvent.error_occurred "No model name provided"] :=
  C10_pull_without_name none [PullChunk.mk (some 10) (some 5) none] none (Or.inl rfl)

/-- C2: the claim says a stream that terminates without any `done` chunk (no
cancellation) yields exactly one error event and zero completion events.  The
code instead falls off the `for chunk in response` loop silently: it emits
only the incremental fragments — zero error events and zero completion
events.  This theorem evaluates the code on such streams. -/
theorem C2_stream_end_without_done (chunks : List ChatChunk)
    (h : ∀ c ∈ chunks, c.done = false) :
    OllamaWorker_run none chunks =
      ((chunks.map (fun c => c.content)).filter (fun s => ! s.isEmpty)).map
        WEvent.message_chunk ∧
    (OllamaWorker_run none chunks).countP isErrorEvent = 0 ∧
    (OllamaWorker_run none chunks).countP isCompleteEvent = 0 := by
  have hrun : OllamaWorker_run none chunks =
      ((chunks.map (fun c => c.content)).filter (fun s => ! s.isEmpty)).map
        WEvent.message_chunk := by
    unfold OllamaWorker_run
    simp only [cancelledAt, if_false, Bool.false_eq_true, ite_false]
    exact ollamaChatLoop_no_done chunks h 0 ""
  refine ⟨hrun, ?_, ?_⟩ <;> rw [hrun] <;>
    simp [List.countP_eq_zero, isErrorEvent, isCompleteEvent]

/-- Witness for C2 at the failing input: one chunk carrying `"Hello"` and
`done = false`, then the transport closes. -/
theorem C2_stream_end_without_done_witness :
    OllamaWorker_run none [ChatChunk.mk "Hello" false] =
      [WEvent.message_chunk "Hello"] ∧
    (OllamaWorker_run none [ChatChunk.mk "Hello" false]).countP isErrorEvent = 0 :=
  ⟨by
      have h := C2_stream_end_without_done [ChatChunk.mk "Hello" false] (by decide)
      exact h.1.trans (by decide),
    (C2_stream_end_without_done [ChatChunk.mk "Hello" false] (by decide)).2.1⟩

/-- C5, counterexample: a configured system prompt consisting of one space is
non-empty, yet no system message is prepended — `run` strips the prompt
before testing it, so the claim's "if and only if the configured
system_prompt is non-empty" fails. -/
theorem C5_cex_whitespace_prompt :
    buildOllamaMessages (ModelConfig.mk 0 0 2048 4096 " ") [] = [] ∧
    (" " : String) ≠ "" := by
  constructor
  · rfl
  · decide

/-- C5, amended: the request payload is a synthetic system-role message
holding the whitespace-stripped system prompt, prepended if and only if the
stripped prompt is non-empty, followed by every transcript message in
transcript order, each reduced to its role and content only (timestamps and
model tags omitted). -/
theorem C5_amended_payload (model_config : ModelConfig) (messages : List ChatMessage) :
    buildOllamaMessages model_config messages =
      (if (pyStrip model_config.system_prompt).isEmpty then []
       else [("system", pyStrip model_config.system_prompt)])
      ++ messages.map (fun m => (m.role, m.content)) := by
  unfold buildOllamaMessages
  exact foldl_append_singleton (fun m => (m.role, m.content)) messages _

/-- Round-to-nearest (ties to even) is within half a unit of the exact
quotient. -/
theorem rneNat_dist (a b : Nat) (hb : 0 < b) :
    |(rneNat a b : ℚ) - (a : ℚ) / b| ≤ 1 / 2 := by
  have hbQ : (0 : ℚ) < (b : ℚ) := by exact_mod_cast hb
  have hmod : a % b < b := Nat.mod_lt a hb
  have hAq : (a : ℚ) / b = ((a / b : Nat) : ℚ) + ((a % b : Nat) : ℚ) / b := by
    have hdm : (b * (a / b) + a % b : Nat) = a := Nat.div_add_mod a b
    have hcast : (a : ℚ) = (b : ℚ) * ((a / b : Nat) : ℚ) + ((a % b : Nat) : ℚ) := by
      exact_mod_cast hdm.symm
    rw [hcast]
    field_simp
    ring
  have hr0 : (0 : ℚ) ≤ ((a % b : Nat) : ℚ) / b := by positivity
  have hr1 : ((a % b : Nat) : ℚ) / b ≤ 1 := by
    rw [div_le_one hbQ]
    exact_mod_cast le_of_lt hmod
  rcases lt_trichotomy (2 * (a % b)) b with hc | hc | hc
  · have hval : rneNat a b = a / b := by simp [rneNat, hc]
    have h2 : 2 * ((a % b : Nat) : ℚ) ≤ (b : ℚ) := by exact_mod_cast le_of_lt hc
    have hhalf : ((a % b : Nat) : ℚ) / b ≤ 1 / 2 := by
      rw [div_le_iff₀ hbQ]
      linarith
    rw [hval, hAq, abs_le]
    constructor <;> linarith
  · have h2 : 2 * ((a % b : Nat) : ℚ) = (b : ℚ) := by exact_mod_cast hc
    have hrb : ((a % b : Nat) : ℚ) / b = 1 / 2 := by
      rw [div_eq_div_iff hbQ.ne' (by norm_num : (2 : ℚ) ≠ 0)]
      linarith
    have hval : rneNat a b = a / b ∨ rneNat a b = a / b + 1 := by
      by_cases hq : (a / b) % 2 = 0
      · left
        simp [rneNat, hc, lt_irrefl, hq]
      · right
        simp [rneNat, hc, lt_irrefl, hq]
    rcases hval with hval | hval <;>
      · rw [hval, hAq, hrb]
        push_cast
        rw [abs_le]
        constructor <;> linarith
  · have hval : rneNat a b = a / b + 1 := by
      have hnot : ¬ 2 * (a % b) < b := by omega
      simp [rneNat, hnot, hc]
    have h2 : (b : ℚ) ≤ 2 * ((a % b : Nat) : ℚ) := by exact_mod_cast le_of_lt hc
    have hhalf : 1 / 2 ≤ ((a % b : Nat) : ℚ) / b := by
      rw [le_div_iff₀ hbQ]
      linarith
    rw [hval, hAq]
    push_cast
    rw [abs_le]
    constructor <;> linarith

/-- The two digits printed by `fmtOneDecimal` read back as `n / den` rounded
to the nearest tenth: their value is within `1/20` of the exact quotient. -/
theorem fmtDigits_close (n den : Nat) (hden : 0 < den) :
    |((rneNat (10 * n) den / 10 : Nat) : ℚ)
        + ((rneNat (10 * n) den % 10 : Nat) : ℚ) / 10
        - (n : ℚ) / den| ≤ 1 / 20 := by
  have hd := rneNat_dist (10 * n) den hden
  have hdenQ : (0 : ℚ) < (den : ℚ) := by exact_mod_cast hden
  have hsplit : ((rneNat (10 * n) den / 10 : Nat) : ℚ)
      + ((rneNat (10 * n) den % 10 : Nat) : ℚ) / 10
      = ((rneNat (10 * n) den : Nat) : ℚ) / 10 := by
    have hdm : (10 * (rneNat (10 * n) den / 10) + rneNat (10 * n) den % 10 : Nat)
        = rneNat (10 * n) den := Nat.div_add_mod _ 10
    have hcast : ((rneNat (10 * n) den : Nat) : ℚ)
        = 10 * ((rneNat (10 * n) den / 10 : Nat) : ℚ)
          + ((rneNat (10 * n) den % 10 : Nat) : ℚ) := by exact_mod_cast hdm.symm
    rw [hcast]
    ring
  have hkey : ((rneNat (10 * n) den : Nat) : ℚ) / 10 - (n : ℚ) / den
      = (1 / 10) * (((rneNat (10 * n) den : Nat) : ℚ) - ((10 * n : Nat) : ℚ) / den) := by
    push_cast
    field_simp
  rw [hsplit, hkey, abs_mul]
  have h110 : |(1 : ℚ) / 10| = 1 / 10 := by norm_num
  rw [h110]
  have hmul := mul_le_mul_of_nonneg_left hd (by norm_num : (0 : ℚ) ≤ 1 / 10)
  linarith

/-- C1, counterexample: the size formatter returns `"Unknown"` for zero bytes
(the claim requires `"0 B"`) and prints one decimal place even for the `B`
unit (the claim requires zero decimals for `B`). -/
theorem C1_cex_format_zero :
    ModelManager_format_size 0 = "Unknown" ∧
    ModelManager_format_size 0 ≠ "0 B" ∧
    ModelManager_format_size 1 = "1.0 B" ∧
    ModelManager_format_size 1 ≠ "1 B" := by decide

/-- C1, amended: for every byte count `n ≥ 1` the formatter returns a string
of two decimal digits groups `a.b` — exactly one decimal place for every
unit, including `B` — followed by the first binary unit from `B` upward for
which `n / 1024^k < 1024` (`PB` if there is none); and for every `n < 2^53`
(the range on which the code's `float(size_bytes)` conversion is exact) the
printed value `a.b` is `n / 1024^k` rounded to the nearest tenth:
`|a + b/10 - n / 1024^k| ≤ 1/20`.  `format(0)` is `"Unknown"`;
`format(1536) = "1.5 KB"` and `format(1073741824) = "1.0 GB"` hold as
claimed. -/
theorem C1_amended_format_shape (n : Nat) (h : 1 ≤ n) :
    (∃ a b : Nat, b < 10 ∧
      ModelManager_format_size n =
        Nat.repr a ++ "." ++ Nat.repr b ++ " " ++ formatSizeUnit n ∧
      (n < 2 ^ 53 →
        |(a : ℚ) + (b : ℚ) / 10 - (n : ℚ) / (1024 : ℚ) ^ formatSizeExp n| ≤ 1 / 20)) ∧
    ModelManager_format_size 0 = "Unknown" ∧
    ModelManager_format_size 1536 = "1.5 KB" ∧
    ModelManager_format_size 1073741824 = "1.0 GB" := by
  refine ⟨?_, by decide, by decide, by decide⟩
  have hn0 : ¬ n = 0 := by omega
  by_cases h1 : n < 1024
  · refine ⟨rneNat (10 * n) 1 / 10, rneNat (10 * n) 1 % 10,
        Nat.mod_lt _ (by norm_num), ?_, ?_⟩
    · have heq : ModelManager_format_size n = fmtOneDecimal n 1 "B" := by
        simp [ModelManager_format_size, hn0, formatSizeLoop, h1]
      have hu : formatSizeUnit n = "B" := by simp [formatSizeUnit, h1]
      rw [heq, hu]; rfl
    · intro hn53
      have hexp : formatSizeExp n = 0 := by simp [formatSizeExp, h1]
      rw [hexp]
      have hb := fmtDigits_close n 1 (by norm_num)
      have hcast : ((1 : ℕ) : ℚ) = (1024 : ℚ) ^ 0 := by norm_num
      rw [hcast] at hb
      exact hb
  · by_cases h2 : n < 1048576
    · refine ⟨rneNat (10 * n) 1024 / 10, rneNat (10 * n) 1024 % 10,
          Nat.mod_lt _ (by norm_num), ?_, ?_⟩
      · have heq : ModelManager_format_size n = fmtOneDecimal n 1024 "KB" := by
          simp [ModelManager_format_size, hn0, formatSizeLoop, h1, h2]
        have hu : formatSizeUnit n = "KB" := by simp [formatSizeUnit, h1, h2]
        rw [heq, hu]; rfl
      · intro hn53
        have hexp : formatSizeExp n = 1 := by simp [formatSizeExp, h1, h2]
        rw [hexp]
        have hb := fmtDigits_close n 1024 (by norm_num)
        have hcast : ((1024 : ℕ) : ℚ) = (1024 : ℚ) ^ 1 := by norm_num
        rw [hcast] at hb
        exact hb
    · by_cases h3 : n < 1073741824
      · refine ⟨rneNat (10 * n) 1048576 / 10, rneNat (10 * n) 1048576 % 10,
            Nat.mod_lt _ (by norm_num), ?_, ?_⟩
        · have heq : ModelManager_format_size n = fmtOneDecimal n 1048576 "MB" := by
            simp [ModelManager_format_size, hn0, formatSizeLoop, h1, h2, h3]
          have hu : formatSizeUnit n = "MB" := by simp [formatSizeUnit, h1, h2, h3]
          rw [heq, hu]; rfl
        · intro hn53
          have hexp : formatSizeExp n = 2 := by simp [formatSizeExp, h1, h2, h3]
          rw [hexp]
          have hb := fmtDigits_close n 1048576 (by norm_num)
          have hcast : ((1048576 : ℕ) : ℚ) = (1024 : ℚ) ^ 2 := by norm_num
          rw [hcast] at hb
          exact hb
      · by_cases h4 : n < 1099511627776
        · refine ⟨rneNat (10 * n) 1073741824 / 10, rneNat (10 * n) 1073741824 % 10,
              Nat.mod_lt _ (by norm_num), ?_, ?_⟩
          · have heq : ModelManager_format_size n = fmtOneDecimal n 1073741824 "GB" := by
              simp [ModelManager_format_size, hn0, formatSizeLoop, h1, h2, h3, h4]
            have hu : formatSizeUnit n = "GB" := by simp [formatSizeUnit, h1, h2, h3, h4]
            rw [heq, hu]; rfl
          · intro hn53
            have hexp : formatSizeExp n = 3 := by simp [formatSizeExp, h1, h2, h3, h4]
            rw [hexp]
            have hb := fmtDigits_close n 1073741824 (by norm_num)
            have hcast : ((1073741824 : ℕ) : ℚ) = (1024 : ℚ) ^ 3 := by norm_num
            rw [hcast] at hb
            exact hb
        · by_cases h5 : n < 1125899906842624
          · refine ⟨rneNat (10 * n) 1099511627776 / 10, rneNat (10 * n) 1099511627776 % 10,
                Nat.mod_lt _ (by norm_num), ?_, ?_⟩
            · have heq : ModelManager_format_size n = fmtOneDecimal n 1099511627776 "TB" := by
                simp [ModelManager_format_size, hn0, formatSizeLoop, h1, h2, h3, h4, h5]
              have hu : formatSizeUnit n = "TB" := by simp [formatSizeUnit, h1, h2, h3, h4, h5]
              rw [heq, hu]; rfl
            · intro hn53
              have hexp : formatSizeExp n = 4 := by simp [formatSizeExp, h1, h2, h3, h4, h5]
              rw [hexp]
              have hb := fmtDigits_close n 1099511627776 (by norm_num)
              have hcast : ((1099511627776 : ℕ) : ℚ) = (1024 : ℚ) ^ 4 := by norm_num
              rw [hcast] at hb
              exact hb
          · refine ⟨rneNat (10 * n) 1125899906842624 / 10, rneNat (10 * n) 1125899906842624 % 10,
                Nat.mod_lt _ (by norm_num), ?_, ?_⟩
            · have heq : ModelManager_format_size n = fmtOneDecimal n 1125899906842624 "PB" := by
                simp [ModelManager_format_size, hn0, formatSizeLoop, h1, h2, h3, h4, h5]
              have hu : formatSizeUnit n = "PB" := by simp [formatSizeUnit, h1, h2, h3, h4, h5]
              rw [heq, hu]; rfl
            · intro hn53
              have hexp : formatSizeExp n = 5 := by simp [formatSizeExp, h1, h2, h3, h4, h5]
              rw [hexp]
              have hb := fmtDigits_close n 1125899906842624 (by norm_num)
              have hcast : ((1125899906842624 : ℕ) : ℚ) = (1024 : ℚ) ^ 5 := by norm_num
              rw [hcast] at hb
              exact hb

/-- Witness for C1 at `n = 1536`. -/
theorem C1_amended_format_shape_witness :
    1 ≤ 1536 ∧
    (∃ a b : Nat, b < 10 ∧
      ModelManager_format_size 1536 =
        Nat.repr a ++ "." ++ Nat.repr b ++ " " ++ formatSizeUnit 1536 ∧
      (1536 < 2 ^ 53 →
        |(a : ℚ) + (b : ℚ) / 10
            - ((1536 : ℕ) : ℚ) / (1024 : ℚ) ^ formatSizeExp 1536| ≤ 1 / 20)) :=
  ⟨by decide, (C1_amended_format_shape 1536 (by decide)).1⟩

/-- C6: on a chat stream that delivers a `done` chunk, with no cancellation,
the worker emits one incremental-content event per non-empty fragment, in
arrival order, and then a single completion event carrying exactly the
concatenation of all non-empty fragments received up to the `done` signal. -/
theorem C6_completion_is_concatenation (chunks : List ChatChunk)
    (h : chunks.any (fun c => c.done) = true) :
    OllamaWorker_run none chunks =
      (contentsBeforeDone chunks).map WEvent.message_chunk
        ++ [WEvent.message_complete (String.join (contentsBeforeDone chunks))] := by
  unfold OllamaWorker_run
  rw [ollamaChatLoop_first_done chunks h 0 "", String.empty_append]
  simp [cancelledAt]

/-- Witness for C6 on the concrete stream `"He"`, `""`, `"llo"` with the
last chunk carrying the done flag. -/
theorem C6_completion_is_concatenation_witness :
    ([ChatChunk.mk "He" false, ChatChunk.mk "" false,
      ChatChunk.mk "llo" true].any (fun c => c.done) = true) ∧
    OllamaWorker_run none
        [ChatChunk.mk "He" false, ChatChunk.mk "" false, ChatChunk.mk "llo" true] =
      (contentsBeforeDone
          [ChatChunk.mk "He" false, ChatChunk.mk "" false, ChatChunk.mk "llo" true]).map
        WEvent.message_chunk
        ++ [WEvent.message_complete (String.join (contentsBeforeDone
              [ChatChunk.mk "He" false, ChatChunk.mk "" false,
               ChatChunk.mk "llo" true]))] :=
  ⟨by decide,
    C6_completion_is_concatenation
      [ChatChunk.mk "He" false, ChatChunk.mk "" false, ChatChunk.mk "llo" true]
      (by decide)⟩

/-- The pull loop only ever emits progress events, never the success
signal. -/
theorem pullLoopEvents_no_pulled (cancelAt : Option Nat) :
    ∀ (chunks : List PullChunk) (i t c : Nat) (s : String),
      MEvent.model_pulled s ∉ (pullLoopEvents cancelAt chunks i t c).1
  | [], _, _, _, _ => by simp [pullLoopEvents]
  | ch :: rest, i, t, c, s => by
      have ih := pullLoopEvents_no_pulled cancelAt rest (i + 1)
        (ch.total.getD t) (ch.completed.getD c) s
      simp only [pullLoopEvents]
      by_cases hc : cancelledAt cancelAt i = true
      · simp [hc]
      · simp only [hc, Bool.false_eq_true, if_false, ite_false]
        intro hmem
        rcases List.mem_cons.mp hmem with hmem | hmem
        · by_cases ht : 0 < ch.total.getD t <;> simp [ht] at hmem
        · exact ih hmem

/-- If the cancel flag flips at point `k` while the stream still has a chunk
to deliver (`i ≤ k < i + length`), the pull loop returns early and its event
list ends with the cancellation progress update. -/
theorem pullLoopEvents_cancelled (k : Nat) :
    ∀ (chunks : List PullChunk) (i t c : Nat), i ≤ k → k < i + chunks.length →
      (pullLoopEvents (some k) chunks i t c).2 = true ∧
      ∃ evs, (pullLoopEvents (some k) chunks i t c).1 =
        evs ++ [MEvent.pull_progress 0 "Download cancelled"]
  | [], i, t, c, h1, h2 => by simp at h2; omega
  | ch :: rest, i, t, c, h1, h2 => by
      by_cases hik : k ≤ i
      · have hc : cancelledAt (some k) i = true := by simp [cancelledAt, hik]
        refine ⟨?_, [], ?_⟩ <;> simp [pullLoopEvents, hc]
      · have hc : cancelledAt (some k) i = false := by
          simp only [cancelledAt, decide_eq_false_iff_not]
          omega
        have h3 : k < (i + 1) + rest.length := by
          simp only [List.length_cons] at h2
          omega
        have ih := pullLoopEvents_cancelled k rest (i + 1)
          (ch.total.getD t) (ch.completed.getD c) (by omega) h3
        simp only [pullLoopEvents, hc, Bool.false_eq_true, if_false, ite_false]
        refine ⟨ih.1, ?_⟩
        obtain ⟨evs, hevs⟩ := ih.2
        exact ⟨_ :: evs, by rw [List.cons_append, hevs]⟩

/-- Without cancellation the pull loop never exits early and emits exactly
the spec's per-update events. -/
theorem pullLoopEvents_none :
    ∀ (chunks : List PullChunk) (i t c : Nat),
      pullLoopEvents none chunks i t c = (pullSpecList t c chunks, false)
  | [], _, _, _ => rfl
  | ch :: rest, i, t, c => by
      simp only [pullLoopEvents, cancelledAt, Bool.false_eq_true, if_false, ite_false,
        pullSpecList]
      rw [pullLoopEvents_none rest (i + 1) (ch.total.getD t) (ch.completed.getD c)]
      rfl

/-- The spec emits exactly one event per pull update. -/
theorem pullSpecList_length : ∀ (chunks : List PullChunk) (t c : Nat),
    (pullSpecList t c chunks).length = chunks.length
  | [], _, _ => rfl
  | ch :: rest, t, c => by
      simp only [pullSpecList, List.length_cons,
        pullSpecList_length rest (ch.total.getD t) (ch.completed.getD c)]

/-- The event at position `i` of the spec list is the expected event for the
`i`-th update, computed from the sticky byte counts of the preceding
updates. -/
theorem pullSpecList_getElem : ∀ (chunks : List PullChunk) (t c : Nat) (i : Nat)
    (ch : PullChunk), chunks[i]? = some ch →
    (pullSpecList t c chunks)[i]? =
      some (pullEventFor (stickyTotal t (chunks.take i))
        (stickyCompleted c (chunks.take i)) ch)
  | [], _, _, i, ch, h => by simp at h
  | ch0 :: rest, t, c, 0, ch, h => by
      simp only [List.getElem?_cons_zero, Option.some.injEq] at h
      subst h
      simp [pullSpecList, stickyTotal, stickyCompleted]
  | ch0 :: rest, t, c, i + 1, ch, h => by
      simp only [List.getElem?_cons_succ] at h
      have ih := pullSpecList_getElem rest (ch0.total.getD t) (ch0.completed.getD c) i ch h
      simp only [pullSpecList, List.getElem?_cons_succ, List.take_succ_cons,
        stickyTotal, List.foldl_cons, stickyCompleted]
      exact ih

/-- C7, counterexample: for the update `total = 100, completed = 29` the code
emits percentage 28, but `floor(completed / total * 100) = 29`: the binary64
evaluation of `int((completed_size / total_size) * 100)` loses 1 because
`(29 / 100) * 100` rounds to just below 29. -/
theorem C7_cex_float_percentage :
    ModelManager_pull_model (some "m")
        [PullChunk.mk (some 100) (some 29) (some "pulling")] none =
      [MEvent.pull_progress (-1) "Starting download of m to remote server...",
       MEvent.pull_progress 28 "Downloading to remote server: pulling (28%)",
       MEvent.model_pulled "m"] ∧
    (28 : Int) ≠ ⌊(29 : ℚ) / 100 * 100⌋ := by
  constructor
  · decide
  · norm_num

/-- C7, amended: on an uncancelled pull, exactly one progress event is
emitted per received update, in arrival order (after the initial
indeterminate start event and before the terminal success event); while the
sticky byte counts give a positive total, the emitted percentage is
`int((completed / total) * 100)` evaluated in binary64 arithmetic (which can
be one below the exact `floor(completed / total * 100)`), and otherwise the
event is the indeterminate `-1` paired with the server status string. -/
theorem C7_amended_ordered_progress (name : String) (chunks : List PullChunk)
    (h : name.isEmpty = false) :
    (ModelManager_pull_model (some name) chunks none).length = chunks.length + 2 ∧
    (ModelManager_pull_model (some name) chunks none).head? =
      some (MEvent.pull_progress (-1)
        ("Starting download of " ++ name ++ " to remote server...")) ∧
    (ModelManager_pull_model (some name) chunks none).getLast? =
      some (MEvent.model_pulled name) ∧
    ∀ (i : Nat) (ch : PullChunk), chunks[i]? = some ch →
      (ModelManager_pull_model (some name) chunks none)[i + 1]? =
        some (pullEventFor (stickyTotal 0 (chunks.take i))
          (stickyCompleted 0 (chunks.take i)) ch) := by
  have hmain : ModelManager_pull_model (some name) chunks none =
      MEvent.pull_progress (-1)
          ("Starting download of " ++ name ++ " to remote server...")
        :: (pullSpecList 0 0 chunks ++ [MEvent.model_pulled name]) := by
    simp only [ModelManager_pull_model, Option.getD_some, h, Bool.false_eq_true,
      if_false, ite_false, pullLoopEvents_none, cancelledAt]
    rw [List.cons_append]
  rw [hmain]
  refine ⟨?_, rfl, ?_, ?_⟩
  · simp [pullSpecList_length]
  · rw [← List.cons_append, List.getLast?_concat]
  · intro i ch hch
    have hi : i < chunks.length := by
      by_contra hcon
      push_neg at hcon
      rw [List.getElem?_eq_none hcon] at hch
      exact Option.noConfusion hch
    rw [List.getElem?_cons_succ,
      List.getElem?_append_left (by rw [pullSpecList_length]; exact hi)]
    exact pullSpecList_getElem chunks 0 0 i ch hch

/-- Witness for C7 at a one-update pull. -/
theorem C7_amended_ordered_progress_witness :
    ("m" : String).isEmpty = false ∧
    (ModelManager_pull_model (some "m")
        [PullChunk.mk (some 100) (some 29) (some "pulling")] none).length =
      ([PullChunk.mk (some 100) (some 29) (some "pulling")] : List PullChunk).length
        + 2 :=
  ⟨by decide,
    (C7_amended_ordered_progress "m"
      [PullChunk.mk (some 100) (some 29) (some "pulling")] (by decide)).1⟩

/-- C8: cancelling a pull while the stream still has updates coming makes
the emitted event sequence end with the terminal cancellation progress
update (`0, "Download cancelled"`) and contain no success event; moreover
for any cancellation behaviour the success event can only be emitted if the
cancel flag was still unset when the stream ended. -/
theorem C8_cancel_suppresses_success (name : String) (chunks : List PullChunk)
    (k : Nat) (hname : name.isEmpty = false) (hk : k < chunks.length) :
    ((ModelManager_pull_model (some name) chunks (some k)).getLast? =
        some (MEvent.pull_progress 0 "Download cancelled") ∧
      MEvent.model_pulled name ∉ ModelManager_pull_model (some name) chunks (some k)) ∧
    ∀ cancelAt : Option Nat,
      MEvent.model_pulled name ∈ ModelManager_pull_model (some name) chunks cancelAt →
      cancelledAt cancelAt chunks.length = false := by
  have hmain : ∀ cancelAt : Option Nat,
      ModelManager_pull_model (some name) chunks cancelAt =
        MEvent.pull_progress (-1)
            ("Starting download of " ++ name ++ " to remote server...")
          :: ((pullLoopEvents cancelAt chunks 0 0 0).1
            ++ (if (pullLoopEvents cancelAt chunks 0 0 0).2 then []
                else if cancelledAt cancelAt chunks.length then []
                else [MEvent.model_pulled name])) := by
    intro cancelAt
    simp only [ModelManager_pull_model, Option.getD_some, hname, Bool.false_eq_true,
      if_false, ite_false]
    rw [List.cons_append]
  obtain ⟨hearly, evs, hevs⟩ :=
    pullLoopEvents_cancelled k chunks 0 0 0 (Nat.zero_le k) (by omega)
  have hno := pullLoopEvents_no_pulled (some k) chunks 0 0 0 name
  refine ⟨⟨?_, ?_⟩, ?_⟩
  · rw [hmain (some k), hevs, hearly]
    simp only [if_true, ite_true, List.append_nil]
    rw [← List.cons_append, List.getLast?_concat]
  · rw [hmain (some k), hearly]
    simp only [if_true, ite_true, List.append_nil]
    intro hmem
    rcases List.mem_cons.mp hmem with hmem | hmem
    · exact MEvent.noConfusion hmem
    · exact hno hmem
  · intro cancelAt hmem
    cases hb : cancelledAt cancelAt chunks.length
    · rfl
    · exfalso
      rw [hmain cancelAt, hb] at hmem
      have hno2 := pullLoopEvents_no_pulled cancelAt chunks 0 0 0 name
      rcases List.mem_cons.mp hmem with hmem | hmem
      · exact MEvent.noConfusion hmem
      · rcases List.mem_append.mp hmem with hmem | hmem
        · exact hno2 hmem
        · by_cases h2 : (pullLoopEvents cancelAt chunks 0 0 0).2 = true <;>
            simp [h2] at hmem

/-- Witness for C8: a one-update pull cancelled before the update is
processed. -/
theorem C8_cancel_suppresses_success_witness :
    ("m" : String).isEmpty = false ∧ (0 : Nat) < 1 ∧
    (((ModelManager_pull_model (some "m") [PullChunk.mk none none none]
          (some 0)).getLast? =
        some (MEvent.pull_progress 0 "Download cancelled") ∧
      MEvent.model_pulled "m" ∉
        ModelManager_pull_model (some "m") [PullChunk.mk none none none] (some 0)) ∧
    ∀ cancelAt : Option Nat,
      MEvent.model_pulled "m" ∈
          ModelManager_pull_model (some "m") [PullChunk.mk none none none] cancelAt →
      cancelledAt cancelAt ([PullChunk.mk none none none] : List PullChunk).length =
        false) :=
  ⟨by decide, by decide,
    C8_cancel_suppresses_success "m" [PullChunk.mk none none none] 0
      (by decide) (by decide)⟩

/-- The code-point lexicographic order is total. -/
theorem lexLe_total : ∀ a b : List Char, lexLe a b = true ∨ lexLe b a = true
  | [], _ => Or.inl rfl
  | _ :: _, [] => Or.inr rfl
  | a :: as, b :: bs => by
      by_cases hab : a < b
      · left
        simp [lexLe, hab]
      · by_cases hba : b < a
        · right
          simp [lexLe, hba]
        · have heq : a = b := le_antisymm (not_lt.mp hba) (not_lt.mp hab)
          subst heq
          rcases lexLe_total as bs with h | h
          · left
            simp [lexLe, lt_irrefl, h]
          · right
            simp [lexLe, lt_irrefl, h]

/-- The code-point lexicographic order is transitive. -/
theorem lexLe_trans : ∀ a b c : List Char,
    lexLe a b = true → lexLe b c = true → lexLe a c = true
  | [], _, _, _, _ => rfl
  | _ :: _, [], _, h1, _ => by simp [lexLe] at h1
  | _ :: _, _ :: _, [], _, h2 => by simp [lexLe] at h2
  | a :: as, b :: bs, c :: cs, h1, h2 => by
      by_cases hab : a < b
      · by_cases hbc : b < c
        · simp [lexLe, lt_trans hab hbc]
        · by_cases hbc2 : b = c
          · subst hbc2
            simp [lexLe, hab]
          · exfalso
            simp [lexLe, hbc, hbc2] at h2
      · by_cases hab2 : a = b
        · subst hab2
          by_cases hbc : a < c
          · simp [lexLe, hbc]
          · by_cases hbc2 : a = c
            · subst hbc2
              have h1t : lexLe as bs = true := by
                simp [lexLe, lt_irrefl] at h1
                exact h1
              have h2t : lexLe bs cs = true := by
                simp [lexLe, lt_irrefl] at h2
                exact h2
              simp [lexLe, lt_irrefl]
              exact lexLe_trans as bs cs h1t h2t
            · exfalso
              simp [lexLe, hbc, hbc2] at h2
        · exfalso
          simp [lexLe, hab, hab2] at h1

/-- C9: the model catalog filter is idempotent — filtering an already
filtered list returns it unchanged: every survivor still passes every rule,
and re-sorting a sorted list is the identity. -/
theorem C9_filter_idempotent (xs : List String) :
    filter_valid_models (filter_valid_models xs) = filter_valid_models xs := by
  haveI hTotal : IsTotal String (fun a b => pyStrLe a b = true) :=
    ⟨fun a b => lexLe_total a.data b.data⟩
  haveI hTrans : IsTrans String (fun a b => pyStrLe a b = true) :=
    ⟨fun a b c => lexLe_trans a.data b.data c.data⟩
  unfold filter_valid_models
  have hmem : ∀ a ∈ List.insertionSort (fun a b => pyStrLe a b = true)
      (xs.filter keepModel), keepModel a = true := by
    intro a ha
    have hmem2 : a ∈ xs.filter keepModel :=
      (List.perm_insertionSort (fun a b => pyStrLe a b = true)
        (xs.filter keepModel)).mem_iff.mp ha
    exact (List.mem_filter.mp hmem2).2
  rw [List.filter_eq_self.mpr hmem]
  exact List.Sorted.insertionSort_eq
    (List.sorted_insertionSort (fun a b => pyStrLe a b = true) (xs.filter keepModel))
